import Mathlib

/-!
Verification of the caching-transform library: a shallow embedding of
src/index.js (the wrap function: key derivation and the read-through /
write-through transform orchestrator) together with theorems checking the
natural-language specification against it.

Modelling conventions:
* JavaScript strings and Buffers become the Value type; bytes are List Nat.
* The external collaborators (the hashing primitive hasha+sha256, the
  directory-creation utility make-dir, the atomic-write utility
  write-file-atomic, Node's fs and text encodings) are out of scope per the
  spec and are modelled by their interfaces: the digest is a configuration
  parameter, encodings are encode/decode function pairs, the filesystem is a
  map from paths to entries, and fallible collaborator calls take their
  outcome (success or thrown error) from a per-invocation environment.
* The wrapper's mutable closure state (the created flag and the memoized
  transformFn) is threaded explicitly as WrapState.
-/

namespace CachingTransform

/-- A JavaScript value flowing through the wrapper: a string or a byte buffer. -/
inductive Value where
  | str (s : String)
  | buf (b : List Nat)
deriving DecidableEq

/-- UTF-8 bytes of a string, as naturals: models Node's treatment of a string
as a byte sequence (hasha and fs default to utf8 for strings). -/
def utf8Bytes (s : String) : List Nat :=
  (s.data.flatMap String.utf8EncodeChar).map UInt8.toNat

/-- Byte sequence of a value: strings contribute their UTF-8 bytes, buffers
their raw bytes. -/
def valueBytes : Value → List Nat
  | .str s => utf8Bytes s
  | .buf b => b

/-- Model of hasha feeding an ordered list of chunks to the hash: hasha calls
update on each chunk in order, so the digest is a function of the
concatenation of the chunks' bytes. -/
def hashaInput (chunks : List Value) : List Nat :=
  (chunks.map valueBytes).flatten

/-- Result of the hashData hook: a single value or an array of values.
JS `[].concat(x)` flattens an array argument one level and appends a
non-array argument as a single element. -/
inductive HashOut where
  | single (v : Value)
  | seq (l : List Value)
deriving DecidableEq

/-- Flattening performed by `[].concat(hashData(input, metadata))` at
src/index.js line 66. -/
def HashOut.toList : HashOut → List Value
  | .single v => [v]
  | .seq l => l

/-- A Node text encoding, modelled by its encode/decode pair. -/
structure Codec where
  enc : String → List Nat
  dec : List Nat → String

/-- The wrapped transform function: input, metadata, optional hash. -/
abbrev TransformFn (μ : Type) := Value → μ → Option String → Value

/-- Errors are carried as their Node error-code strings. -/
abbrev Err := String

/-- Configuration of one wrapper instance (src/index.js lines 15-35), after
the defaulting on lines 24-35. `transform` holds the directly supplied
transform function; `hasFactory` records that a factory was supplied (the
factory is user code whose behavior per call is taken from the invocation
environment). `encoding` is the resolved encoding of line 35: `none` is
buffer mode (JS undefined), `some c` a text codec (default utf8).
`digest` is the external hasha/sha256 primitive; `ownHash` the memoized
package-hash fingerprint. -/
structure Config (μ : Type) where
  transform : Option (TransformFn μ)
  hasFactory : Bool
  cacheDir : String
  shouldTransform : Option (Value → μ → Bool)
  disableCache : Bool
  hashData : Value → μ → HashOut
  onHash : Option (Value → μ → String → Unit)
  ext : String
  salt : Value
  createCacheDir : Bool
  encoding : Option Codec
  digest : List Nat → String
  ownHash : String

/-- Option validation of src/index.js lines 16-18: exactly one of factory and
transform. (The cacheDir string check of lines 20-22 is vacuous in the model,
where cacheDir is always a string.) -/
def optsValid (cfg : Config μ) : Bool :=
  (cfg.transform.isSome || cfg.hasFactory) && !(cfg.transform.isSome && cfg.hasFactory)

/-- Mutable closure state of one wrapper instance: the created flag and the
memoized effective transform function (src/index.js lines 31-34). -/
structure WrapState (μ : Type) where
  created : Bool
  transformFn : Option (TransformFn μ)

/-- Initial closure state: `created = transformFn && cacheDirCreated` where
`cacheDirCreated = (opts.createCacheDir === false)` (lines 33-34). -/
def initState (cfg : Config μ) : WrapState μ :=
  { created := cfg.transform.isSome && !cfg.createCacheDir
    transformFn := cfg.transform }

/-- An entry of the modelled filesystem: readable data, or a
permission-protected entry whose read raises EACCES. -/
inductive FileEntry where
  | data (b : List Nat)
  | denied
deriving DecidableEq

/-- The filesystem: a map from paths to entries. -/
abbrev Fs := String → Option FileEntry

/-- Model of fs.readFileSync: a missing path raises ENOENT, a protected entry
raises EACCES, otherwise the bytes are returned. -/
def readFs (fs : Fs) (p : String) : Except Err (List Nat) :=
  match fs p with
  | none => .error "ENOENT"
  | some .denied => .error "EACCES"
  | some (.data b) => .ok b

/-- Filesystem after a successful (atomic) write of bytes to a path. -/
def fsSet (fs : Fs) (p : String) (b : List Nat) : Fs :=
  fun q => if q = p then some (.data b) else fs q

/-- Value returned by fs.readFileSync for the resolved encoding: buffer mode
returns the raw bytes, a text codec decodes them. -/
def decodeRead (enc : Option Codec) (b : List Nat) : Value :=
  match enc with
  | none => .buf b
  | some c => .str (c.dec b)

/-- Bytes written by writeFileAtomic.sync for a result value: a buffer is
written raw regardless of encoding, a string is encoded per the codec
(utf8 in buffer mode, matching Node). -/
def encodeWrite (enc : Option Codec) (v : Value) : List Nat :=
  match v with
  | .buf b => b
  | .str s =>
    match enc with
    | none => utf8Bytes s
    | some c => c.enc s

/-- Per-invocation behavior of the fallible external calls: whether
makeDir.sync would throw, what the user-supplied factory would do if called,
and whether writeFileAtomic.sync would throw. -/
structure Env (μ : Type) where
  mkdirFault : Option Err
  factoryNow : Except Err (TransformFn μ)
  writeFault : Option Err

/-- Result of one run of the inner transform closure. -/
structure TOut (μ : Type) where
  res : Except Err Value
  st : WrapState μ
  mkdirAttempts : Nat
  factoryCalls : Nat
  tfCalls : Nat
  hashArgs : List (Option String)

/-- Model of the inner `transform` closure (src/index.js lines 37-51): on the
first need, create the cache directory (unless createCacheDir is false or the
cache is disabled) and realize the transform function via the factory if no
direct transform was supplied; `created` is set only after both steps
succeed, so a throw from either leaves the closure state unchanged. -/
def transformStep (cfg : Config μ) (env : Env μ) (st : WrapState μ)
    (input : Value) (meta : μ) (hash? : Option String) : TOut μ :=
  if st.created then
    match st.transformFn with
    | some f => ⟨.ok (f input meta hash?), st, 0, 0, 1, [hash?]⟩
    | none => ⟨.error "TypeError", st, 0, 0, 0, []⟩
  else
    let finish : Nat → TOut μ := fun n =>
      match st.transformFn with
      | some f => ⟨.ok (f input meta hash?), ⟨true, some f⟩, n, 0, 1, [hash?]⟩
      | none =>
        if cfg.hasFactory then
          match env.factoryNow with
          | .error e => ⟨.error e, st, n, 1, 0, []⟩
          | .ok f => ⟨.ok (f input meta hash?), ⟨true, some f⟩, n, 1, 1, [hash?]⟩
        else
          ⟨.error "TypeError", st, n, 0, 0, []⟩
    if cfg.createCacheDir && !cfg.disableCache then
      match env.mkdirFault with
      | some e => ⟨.error e, st, 1, 0, 0, []⟩
      | none => finish 1
    else
      finish 0

/-- Bypass gate of src/index.js lines 54-56: configured shouldTransform
returning false short-circuits the call. -/
def bypassed (cfg : Config μ) (input : Value) (meta : μ) : Bool :=
  match cfg.shouldTransform with
  | some p => !p input meta
  | none => false

/-- The ordered hash-input array built at src/index.js lines 62-67:
`[ownHash, input, salt, ...[].concat(hashData(input, metadata))]`. -/
def hashaData (cfg : Config μ) (input : Value) (meta : μ) : List Value :=
  [Value.str cfg.ownHash, input, cfg.salt] ++ (cfg.hashData input meta).toList

/-- The derived cache key: hasha(data, sha256) at src/index.js line 68. -/
def deriveKey (cfg : Config μ) (input : Value) (meta : μ) : String :=
  cfg.digest (hashaInput (hashaData cfg input meta))

/-- The target path of src/index.js line 69: path.join(cacheDir, hash + ext). -/
def cachedPath (cfg : Config μ) (input : Value) (meta : μ) : String :=
  cfg.cacheDir ++ "/" ++ (deriveKey cfg input meta ++ cfg.ext)

/-- Observable outcome of one invocation of the wrapped function: the return
or thrown error, the filesystem and closure state after the call, and logs of
the external interactions (paths read, path/bytes write attempts, makeDir
attempts, factory calls, transform calls with the hash argument each
received, digest computations, onHash notifications). -/
structure Outcome (μ : Type) where
  ret : Except Err Value
  fs : Fs
  st : WrapState μ
  reads : List String
  writes : List (String × List Nat)
  mkdirAttempts : Nat
  factoryCalls : Nat
  tfCalls : Nat
  hashArgs : List (Option String)
  hashaCalls : Nat
  onHashCalls : List String

/-- Model of one invocation of the function returned by wrap (src/index.js
lines 53-82): bypass check, cache-disabled direct call, key derivation,
onHash notification, cached read, and on any read failure the transform
followed by a single atomic persist attempt whose failure surfaces. -/
def invoke (cfg : Config μ) (env : Env μ) (fs : Fs) (st : WrapState μ)
    (input : Value) (meta : μ) : Outcome μ :=
  if bypassed cfg input meta then
    { ret := .ok input, fs := fs, st := st, reads := [], writes := []
      mkdirAttempts := 0, factoryCalls := 0, tfCalls := 0, hashArgs := []
      hashaCalls := 0, onHashCalls := [] }
  else if cfg.disableCache then
    let t := transformStep cfg env st input meta none
    { ret := t.res, fs := fs, st := t.st, reads := [], writes := []
      mkdirAttempts := t.mkdirAttempts, factoryCalls := t.factoryCalls
      tfCalls := t.tfCalls, hashArgs := t.hashArgs
      hashaCalls := 0, onHashCalls := [] }
  else
    let hash := deriveKey cfg input meta
    let p := cachedPath cfg input meta
    let onHashCalls := if cfg.onHash.isSome then [hash] else []
    match readFs fs p with
    | .ok b =>
      { ret := .ok (decodeRead cfg.encoding b), fs := fs, st := st
        reads := [p], writes := [], mkdirAttempts := 0, factoryCalls := 0
        tfCalls := 0, hashArgs := [], hashaCalls := 1
        onHashCalls := onHashCalls }
    | .error _ =>
      let t := transformStep cfg env st input meta (some hash)
      match t.res with
      | .error e =>
        { ret := .error e, fs := fs, st := t.st, reads := [p], writes := []
          mkdirAttempts := t.mkdirAttempts, factoryCalls := t.factoryCalls
          tfCalls := t.tfCalls, hashArgs := t.hashArgs, hashaCalls := 1
          onHashCalls := onHashCalls }
      | .ok result =>
        let bytes := encodeWrite cfg.encoding result
        match env.writeFault with
        | some e =>
          { ret := .error e, fs := fs, st := t.st, reads := [p]
            writes := [(p, bytes)], mkdirAttempts := t.mkdirAttempts
            factoryCalls := t.factoryCalls, tfCalls := t.tfCalls
            hashArgs := t.hashArgs, hashaCalls := 1
            onHashCalls := onHashCalls }
        | none =>
          { ret := .ok result, fs := fsSet fs p bytes, st := t.st
            reads := [p], writes := [(p, bytes)]
            mkdirAttempts := t.mkdirAttempts, factoryCalls := t.factoryCalls
            tfCalls := t.tfCalls, hashArgs := t.hashArgs, hashaCalls := 1
            onHashCalls := onHashCalls }

instance exceptDecEq {ε α : Type} [DecidableEq ε] [DecidableEq α] :
    DecidableEq (Except ε α) := fun a b =>
  match a, b with
  | .ok a, .ok b =>
    if h : a = b then .isTrue (by rw [h])
    else .isFalse (by intro hh; cases hh; exact h rfl)
  | .error a, .error b =>
    if h : a = b then .isTrue (by rw [h])
    else .isFalse (by intro hh; cases hh; exact h rfl)
  | .ok _, .error _ => .isFalse (by intro hh; cases hh)
  | .error _, .ok _ => .isFalse (by intro hh; cases hh)

/-- Sequential invocations of one wrapper instance, threading the filesystem
and closure state and totalling makeDir attempts and factory calls. -/
def runSeq (cfg : Config μ) :
    List (Env μ × Value × μ) → Fs → WrapState μ → Fs × WrapState μ × Nat × Nat
  | [], fs, st => (fs, st, 0, 0)
  | (env, input, meta) :: rest, fs, st =>
    let o := invoke cfg env fs st input meta
    let r := runSeq cfg rest o.fs o.st
    (r.1, r.2.1, o.mkdirAttempts + r.2.2.1, o.factoryCalls + r.2.2.2)

/-- Hash-input sequence exactly as the spec words it (section 4.1): the
ordered sequence
`[OwnFingerprint, input, salt, ...flatten(hashDataFn(input, metadata) or empty)]`,
where a non-sequence return value of the hashData hook is a one-element
sequence. Stated from the spec to be compared with the code-derived
`hashaData`. -/
def specHashSequence (cfg : Config μ) (input : Value) (meta : μ) : List Value :=
  [Value.str cfg.ownHash, input, cfg.salt] ++
    (match cfg.hashData input meta with
     | .single v => [v]
     | .seq l => l)

/-- Modelled from the spec: the repository version whose orchestrator adds
the filenamePrefix hook and the bounded persist retry is not under src (only
its tests are); its configuration is the src configuration plus
`filenamePrefix` (capability metadata to string, default empty, prefixed to
the cache filename). -/
structure ConfigR (μ : Type) extends Config μ where
  filenamePrefix : μ → String

/-- Modelled from the spec: outcome of one atomic-persist attempt — success,
a failure attributable to the known transient directory/file race, or any
other failure. -/
inductive WriteOutcome where
  | ok
  | transient (e : Err)
  | fatal (e : Err)
deriving DecidableEq

/-- Per-invocation collaborator behavior for the retrying orchestrator: the
n-th persist attempt of the invocation takes its outcome from
`writeOutcomes n`. -/
structure EnvR (μ : Type) where
  mkdirFault : Option Err
  factoryNow : Except Err (TransformFn μ)
  writeOutcomes : Nat → WriteOutcome

/-- Realization environment of a retrying invocation, viewed by the shared
transform closure (no single write fault: persistence is handled by the
retry loop). -/
def EnvR.toEnv (env : EnvR μ) : Env μ :=
  { mkdirFault := env.mkdirFault, factoryNow := env.factoryNow
    writeFault := none }

/-- Modelled from the spec: on a persist failure specifically attributable to
the transient directory/file race, retry up to `retriesLeft` additional
attempts before surfacing the error; any other failure surfaces immediately.
Returns the number of attempts made and the surfaced error, if any. -/
def persistLoop (outcomes : Nat → WriteOutcome) (attempt : Nat)
    (retriesLeft : Nat) : Nat × Option Err :=
  match outcomes attempt with
  | .ok => (attempt + 1, none)
  | .fatal e => (attempt + 1, some e)
  | .transient e =>
    match retriesLeft with
    | 0 => (attempt + 1, some e)
    | n + 1 => persistLoop outcomes (attempt + 1) n

/-- Modelled from the spec: the target path of the retrying orchestrator,
`cacheDirectoryPath / (filenamePrefixFn(metadata) + key + extension)`. -/
def cachedPathR (cfg : ConfigR μ) (input : Value) (meta : μ) : String :=
  cfg.cacheDir ++ "/" ++
    (cfg.filenamePrefix meta ++ deriveKey cfg.toConfig input meta ++ cfg.ext)

/-- Modelled from the spec: one invocation of the retrying orchestrator (the
repository version absent from src, of which only tests are present).
Identical to `invoke` except that the target path carries the
filenamePrefix and that persisting retries up to 3 additional attempts on
transient directory-race failures, reusing the already-computed result
without re-invoking the transform. -/
def invokeR (cfg : ConfigR μ) (env : EnvR μ) (fs : Fs) (st : WrapState μ)
    (input : Value) (meta : μ) : Outcome μ :=
  if bypassed cfg.toConfig input meta then
    { ret := .ok input, fs := fs, st := st, reads := [], writes := []
      mkdirAttempts := 0, factoryCalls := 0, tfCalls := 0, hashArgs := []
      hashaCalls := 0, onHashCalls := [] }
  else if cfg.disableCache then
    let t := transformStep cfg.toConfig env.toEnv st input meta none
    { ret := t.res, fs := fs, st := t.st, reads := [], writes := []
      mkdirAttempts := t.mkdirAttempts, factoryCalls := t.factoryCalls
      tfCalls := t.tfCalls, hashArgs := t.hashArgs
      hashaCalls := 0, onHashCalls := [] }
  else
    let hash := deriveKey cfg.toConfig input meta
    let p := cachedPathR cfg input meta
    let onHashCalls := if cfg.onHash.isSome then [hash] else []
    match readFs fs p with
    | .ok b =>
      { ret := .ok (decodeRead cfg.encoding b), fs := fs, st := st
        reads := [p], writes := [], mkdirAttempts := 0, factoryCalls := 0
        tfCalls := 0, hashArgs := [], hashaCalls := 1
        onHashCalls := onHashCalls }
    | .error _ =>
      let t := transformStep cfg.toConfig env.toEnv st input meta (some hash)
      match t.res with
      | .error e =>
        { ret := .error e, fs := fs, st := t.st, reads := [p], writes := []
          mkdirAttempts := t.mkdirAttempts, factoryCalls := t.factoryCalls
          tfCalls := t.tfCalls, hashArgs := t.hashArgs, hashaCalls := 1
          onHashCalls := onHashCalls }
      | .ok result =>
        let bytes := encodeWrite cfg.encoding result
        let attempts := persistLoop env.writeOutcomes 0 3
        match attempts.2 with
        | some e =>
          { ret := .error e, fs := fs, st := t.st, reads := [p]
            writes := List.replicate attempts.1 (p, bytes)
            mkdirAttempts := t.mkdirAttempts, factoryCalls := t.factoryCalls
            tfCalls := t.tfCalls, hashArgs := t.hashArgs, hashaCalls := 1
            onHashCalls := onHashCalls }
        | none =>
          { ret := .ok result, fs := fsSet fs p bytes, st := t.st
            reads := [p], writes := List.replicate attempts.1 (p, bytes)
            mkdirAttempts := t.mkdirAttempts, factoryCalls := t.factoryCalls
            tfCalls := t.tfCalls, hashArgs := t.hashArgs, hashaCalls := 1
            onHashCalls := onHashCalls }

/-! Concrete instances used by the closed witness and counterexample
theorems below. -/

/-- A simple text decoding: each byte becomes the character with that code. -/
def asciiDec (b : List Nat) : String := String.mk (b.map Char.ofNat)

/-- A sample text codec. -/
def sampleCodec : Codec := ⟨utf8Bytes, asciiDec⟩

/-- A lossy codec, under which no nonempty string round-trips. -/
def lossyCodec : Codec := ⟨fun _ => [], fun _ => ""⟩

/-- The transform used throughout the repository's tests: append a suffix. -/
def appendBar : TransformFn Unit := fun v _ _ =>
  match v with
  | .str s => .str (s ++ " bar")
  | .buf b => .buf b

/-- A transform with constant output. -/
def constAbc : TransformFn Unit := fun _ _ _ => .str "abc"

/-- A sample direct-transform configuration. -/
def baseCfg : Config Unit :=
  { transform := some appendBar
    hasFactory := false
    cacheDir := "cd"
    shouldTransform := none
    disableCache := false
    hashData := fun _ _ => .seq []
    onHash := none
    ext := ""
    salt := .str ""
    createCacheDir := true
    encoding := some sampleCodec
    digest := fun _ => "K"
    ownHash := "OWN" }

/-- The sample configuration with a factory instead of a direct transform. -/
def factCfg : Config Unit := { baseCfg with transform := none, hasFactory := true }

/-- The sample configuration with createCacheDir disabled (so the closure
starts out realized). -/
def preCfg : Config Unit := { baseCfg with createCacheDir := false }

/-- The empty filesystem. -/
def emptyFs : Fs := fun _ => none

/-- A filesystem whose only entry, at the sample derived path, is
permission-protected. -/
def deniedFs : Fs := fun q => if q = "cd/K" then some .denied else none

/-- A filesystem holding pre-populated cache content at the sample path. -/
def hitFs : Fs := fun q =>
  if q = "cd/K" then some (.data (utf8Bytes "foo bar")) else none

/-- An environment in which every external call succeeds. -/
def okEnv : Env Unit := ⟨none, .ok appendBar, none⟩

/-- An environment whose factory call throws. -/
def badFactoryEnv : Env Unit := ⟨none, .error "EFACTORY", none⟩

/-- An environment whose makeDir call throws. -/
def badMkdirEnv : Env Unit := ⟨some "EPERM", .ok appendBar, none⟩

/-- Sensitivity counterexample configurations: identical in every component
except the hashData hook, whose two outputs are distinct sequences with equal
byte concatenations. -/
def chunksCfg1 : Config Unit :=
  { baseCfg with digest := asciiDec, hashData := fun _ _ => .seq [.str "a", .str "b"] }

/-- Second configuration of the sensitivity counterexample. -/
def chunksCfg2 : Config Unit :=
  { baseCfg with digest := asciiDec, hashData := fun _ _ => .seq [.str "ab"] }

/-- An injective digest: each byte count is encoded in unary followed by a
separator, so distinct byte lists get distinct strings. -/
def encodeKey (l : List Nat) : String :=
  String.mk (l.flatMap fun n => List.replicate n 'a' ++ ['b'])

/-- The sample configuration with the injective digest. -/
def injCfg : Config Unit := { baseCfg with digest := encodeKey }

/-- The sample configuration with a constant transform and the lossy codec. -/
def lossyCfg : Config Unit :=
  { preCfg with transform := some constAbc, encoding := some lossyCodec }

/-- A sample retrying-orchestrator configuration with a filename prefix. -/
def rCfg : ConfigR Unit := { preCfg with filenamePrefix := fun _ => "pre-" }

/-- A retrying environment whose first `k` persist attempts fail with the
transient race and whose next attempt succeeds. -/
def retryEnv (k : Nat) : EnvR Unit :=
  ⟨none, .ok appendBar, fun n => if n < k then .transient "ENOENT" else .ok⟩

/-- A retrying environment in which every persist attempt fails with the
transient race. -/
def allTransientEnv : EnvR Unit :=
  ⟨none, .ok appendBar, fun _ => .transient "ENOENT"⟩

/-! Helper lemmas about the hash-input concatenation and the transform
closure, shared by the claim theorems below. -/

theorem hashaInput_nil : hashaInput [] = [] := rfl

theorem hashaInput_cons (v : Value) (l : List Value) :
    hashaInput (v :: l) = valueBytes v ++ hashaInput l := by
  simp [hashaInput]

theorem hashaInput_append (l₁ l₂ : List Value) :
    hashaInput (l₁ ++ l₂) = hashaInput l₁ ++ hashaInput l₂ := by
  simp [hashaInput]

theorem transformStep_counts {μ : Type} (cfg : Config μ) (env : Env μ)
    (st : WrapState μ) (input : Value) (meta : μ) (hash? : Option String) :
    (transformStep cfg env st input meta hash?).mkdirAttempts ≤ 1 ∧
    (transformStep cfg env st input meta hash?).factoryCalls ≤ 1 := by
  unfold transformStep
  repeat' split
  all_goals simp

theorem transformStep_created {μ : Type} (cfg : Config μ) (env : Env μ)
    (st : WrapState μ) (input : Value) (meta : μ) (hash? : Option String)
    (hcr : st.created = true) :
    (transformStep cfg env st input meta hash?).st = st ∧
    (transformStep cfg env st input meta hash?).mkdirAttempts = 0 ∧
    (transformStep cfg env st input meta hash?).factoryCalls = 0 := by
  unfold transformStep
  cases h : st.transformFn <;> simp [hcr, h]

theorem transformStep_realizes {μ : Type} (cfg : Config μ) (env : Env μ)
    (st : WrapState μ) (input : Value) (meta : μ) (hash? : Option String)
    (hcr : st.created = false)
    (hval : cfg.hasFactory = true ∨ st.transformFn.isSome = true)
    (hm : env.mkdirFault = none) (hf : ∃ f, env.factoryNow = .ok f) :
    (transformStep cfg env st input meta hash?).st.created = true := by
  obtain ⟨f, hf⟩ := hf
  have hfac : st.transformFn = none → cfg.hasFactory = true := by
    intro h
    rcases hval with h' | h' <;> simp_all
  unfold transformStep
  repeat' split
  all_goals simp_all

theorem transformStep_tfn_isSome {μ : Type} (cfg : Config μ) (env : Env μ)
    (st : WrapState μ) (input : Value) (meta : μ) (hash? : Option String)
    (h : st.transformFn.isSome = true) :
    (transformStep cfg env st input meta hash?).st.transformFn.isSome = true := by
  unfold transformStep
  repeat' split
  all_goals simp_all

theorem invoke_shape {μ : Type} (cfg : Config μ) (env : Env μ) (fs : Fs)
    (st : WrapState μ) (input : Value) (meta : μ) :
    ((invoke cfg env fs st input meta).st = st ∧
     (invoke cfg env fs st input meta).mkdirAttempts = 0 ∧
     (invoke cfg env fs st input meta).factoryCalls = 0) ∨
    (∃ h?, (invoke cfg env fs st input meta).st
        = (transformStep cfg env st input meta h?).st ∧
      (invoke cfg env fs st input meta).mkdirAttempts
        = (transformStep cfg env st input meta h?).mkdirAttempts ∧
      (invoke cfg env fs st input meta).factoryCalls
        = (transformStep cfg env st input meta h?).factoryCalls) := by
  unfold invoke
  by_cases hb : bypassed cfg input meta
  · simp [hb]
  · simp only [hb, Bool.false_eq_true, if_false]
    by_cases hd : cfg.disableCache
    · right; exact ⟨none, by simp [hd]⟩
    · simp only [hd, Bool.false_eq_true, if_false]
      cases hro : readFs fs (cachedPath cfg input meta) with
      | ok b => simp [hro]
      | error e =>
        right
        refine ⟨some (deriveKey cfg input meta), ?_⟩
        simp only [hro]
        cases hres : (transformStep cfg env st input meta
            (some (deriveKey cfg input meta))).res with
        | error e2 => simp [hres]
        | ok r => cases hwf : env.writeFault <;> simp [hres, hwf]

theorem invoke_counts {μ : Type} (cfg : Config μ) (env : Env μ) (fs : Fs)
    (st : WrapState μ) (input : Value) (meta : μ) :
    (invoke cfg env fs st input meta).mkdirAttempts ≤ 1 ∧
    (invoke cfg env fs st input meta).factoryCalls ≤ 1 := by
  rcases invoke_shape cfg env fs st input meta with ⟨_, hm, hf⟩ | ⟨h?, _, hm, hf⟩
  · simp [hm, hf]
  · rw [hm, hf]
    exact transformStep_counts cfg env st input meta h?

theorem invoke_created_stable {μ : Type} (cfg : Config μ) (env : Env μ)
    (fs : Fs) (st : WrapState μ) (input : Value) (meta : μ)
    (hcr : st.created = true) :
    (invoke cfg env fs st input meta).st = st ∧
    (invoke cfg env fs st input meta).mkdirAttempts = 0 ∧
    (invoke cfg env fs st input meta).factoryCalls = 0 := by
  rcases invoke_shape cfg env fs st input meta with h | ⟨h?, hst, hm, hf⟩
  · exact h
  · rw [hst, hm, hf]
    exact transformStep_created cfg env st input meta h? hcr

theorem invoke_tfn_isSome {μ : Type} (cfg : Config μ) (env : Env μ) (fs : Fs)
    (st : WrapState μ) (input : Value) (meta : μ)
    (h : st.transformFn.isSome = true) :
    (invoke cfg env fs st input meta).st.transformFn.isSome = true := by
  rcases invoke_shape cfg env fs st input meta with ⟨hst, _, _⟩ | ⟨h?, hst, _, _⟩
  · rw [hst]; exact h
  · rw [hst]
    exact transformStep_tfn_isSome cfg env st input meta h? h

theorem invoke_not_created {μ : Type} (cfg : Config μ) (env : Env μ) (fs : Fs)
    (st : WrapState μ) (input : Value) (meta : μ)
    (hval : cfg.hasFactory = true ∨ st.transformFn.isSome = true)
    (hm : env.mkdirFault = none) (hf : ∃ f, env.factoryNow = .ok f) :
    (invoke cfg env fs st input meta).st.created = true ∨
    ((invoke cfg env fs st input meta).st = st ∧
     (invoke cfg env fs st input meta).mkdirAttempts = 0 ∧
     (invoke cfg env fs st input meta).factoryCalls = 0) := by
  by_cases hcr : st.created = true
  · rcases invoke_shape cfg env fs st input meta with h | ⟨h?, hst, hm', hf'⟩
    · exact Or.inr h
    · left
      rw [hst, (transformStep_created cfg env st input meta h? hcr).1]
      exact hcr
  · rcases invoke_shape cfg env fs st input meta with h | ⟨h?, hst, hm', hf'⟩
    · exact Or.inr h
    · left
      rw [hst]
      exact transformStep_realizes cfg env st input meta h?
        (by simpa using hcr) hval hm hf

theorem runSeq_counts {μ : Type} (cfg : Config μ)
    (calls : List (Env μ × Value × μ)) :
    ∀ (fs : Fs) (st : WrapState μ),
    (∀ c ∈ calls, c.1.mkdirFault = none ∧ ∃ f, c.1.factoryNow = .ok f) →
    (cfg.hasFactory = true ∨ st.transformFn.isSome = true) →
    ((runSeq cfg calls fs st).2.2.1 ≤ 1 ∧ (runSeq cfg calls fs st).2.2.2 ≤ 1) ∧
    (st.created = true →
      (runSeq cfg calls fs st).2.2.1 = 0 ∧ (runSeq cfg calls fs st).2.2.2 = 0) := by
  induction calls with
  | nil => intro fs st _ _; simp [runSeq]
  | cons c rest ih =>
    intro fs st hok hval
    obtain ⟨env, input, meta⟩ := c
    have hc := hok _ (List.mem_cons_self _ _)
    have hrest : ∀ c ∈ rest, c.1.mkdirFault = none ∧ ∃ f, c.1.factoryNow = .ok f :=
      fun c hcm => hok c (List.mem_cons_of_mem _ hcm)
    have hval' : cfg.hasFactory = true ∨
        (invoke cfg env fs st input meta).st.transformFn.isSome = true := by
      rcases hval with h | h
      · exact Or.inl h
      · exact Or.inr (invoke_tfn_isSome cfg env fs st input meta h)
    have hcounts := invoke_counts cfg env fs st input meta
    have hih := ih (invoke cfg env fs st input meta).fs
      (invoke cfg env fs st input meta).st hrest hval'
    by_cases hcr : st.created = true
    · have hstable := invoke_created_stable cfg env fs st input meta hcr
      have hrest0 := hih.2 (by rw [hstable.1]; exact hcr)
      simp [runSeq, hstable.2.1, hstable.2.2, hrest0.1, hrest0.2]
    · rcases invoke_not_created cfg env fs st input meta
        hval hc.1 hc.2 with hcreated | ⟨_, hm0, hf0⟩
      · have hrest0 := hih.2 hcreated
        constructor
        · simp [runSeq, hrest0.1, hrest0.2]
          omega
        · intro h; exact absurd h hcr
      · constructor
        · simp [runSeq, hm0, hf0]
          exact hih.1
        · intro h; exact absurd h hcr

theorem transformStep_hashArgs {μ : Type} (cfg : Config μ) (env : Env μ)
    (st : WrapState μ) (input : Value) (meta : μ) (hash? : Option String) :
    ∀ x ∈ (transformStep cfg env st input meta hash?).hashArgs, x = hash? := by
  unfold transformStep
  repeat' split
  all_goals simp_all

/-! The claim theorems. -/

/-- C2: whenever a file already exists at the derived cache path, the wrapped
transform function is never invoked and the call returns exactly the file's
content decoded per the configured encoding. -/
theorem c2_cache_hit_suppresses_transform {μ : Type} (cfg : Config μ)
    (env : Env μ) (fs : Fs) (st : WrapState μ) (input : Value) (meta : μ)
    (b : List Nat)
    (hby : bypassed cfg input meta = false)
    (hdc : cfg.disableCache = false)
    (hfile : fs (cachedPath cfg input meta) = some (.data b)) :
    (invoke cfg env fs st input meta).tfCalls = 0 ∧
    (invoke cfg env fs st input meta).factoryCalls = 0 ∧
    (invoke cfg env fs st input meta).ret = .ok (decodeRead cfg.encoding b) := by
  have hro : readFs fs (cachedPath cfg input meta) = .ok b := by
    simp [readFs, hfile]
  unfold invoke
  simp [hby, hdc, hro]

/-- C2 witness: a pre-populated cache file for input foo is returned decoded
and the transform is not called. -/
theorem c2_cache_hit_suppresses_transform_witness :
    (invoke baseCfg okEnv hitFs (initState baseCfg) (.str "foo") ()).tfCalls = 0 ∧
    (invoke baseCfg okEnv hitFs (initState baseCfg) (.str "foo") ()).factoryCalls = 0 ∧
    (invoke baseCfg okEnv hitFs (initState baseCfg) (.str "foo") ()).ret
      = .ok (decodeRead baseCfg.encoding (utf8Bytes "foo bar")) :=
  c2_cache_hit_suppresses_transform baseCfg okEnv hitFs (initState baseCfg)
    (.str "foo") () (utf8Bytes "foo bar") rfl rfl (by decide)

/-- C3: the derived cache key equals the digest of the ordered sequence
[OwnFingerprint, input, salt, ...flatten(hashData(input, metadata))] fed to
the hashing primitive in exactly that order; a non-sequence hashData return
is a one-element sequence, and the absent-hashData default contributes
nothing. -/
theorem c3_key_derivation_sequence {μ : Type} (cfg : Config μ)
    (input : Value) (meta : μ) :
    deriveKey cfg input meta
      = cfg.digest (hashaInput (specHashSequence cfg input meta)) ∧
    (∀ v, specHashSequence { cfg with hashData := fun _ _ => .single v } input meta
      = [.str cfg.ownHash, input, cfg.salt, v]) ∧
    specHashSequence { cfg with hashData := fun _ _ => .seq [] } input meta
      = [.str cfg.ownHash, input, cfg.salt] := by
  refine ⟨?_, fun v => rfl, rfl⟩
  unfold deriveKey hashaData specHashSequence HashOut.toList
  cases cfg.hashData input meta <;> rfl

/-- C9: with disableCache set, no key is derived (the digest is never
computed) and every call of the wrapped transform receives an undefined hash
argument. -/
theorem c9_disable_cache_no_hash {μ : Type} (cfg : Config μ) (env : Env μ)
    (fs : Fs) (st : WrapState μ) (input : Value) (meta : μ)
    (hdc : cfg.disableCache = true) :
    (invoke cfg env fs st input meta).hashaCalls = 0 ∧
    ∀ h ∈ (invoke cfg env fs st input meta).hashArgs, h = none := by
  unfold invoke
  by_cases hb : bypassed cfg input meta
  · simp [hb]
  · simp only [hb, Bool.false_eq_true, if_false, hdc, if_true]
    refine ⟨by simp, transformStep_hashArgs cfg env st input meta none⟩

/-- C9 witness: a cache-disabled invocation computes no digest and passes no
hash to the transform. -/
theorem c9_disable_cache_no_hash_witness :
    (invoke { baseCfg with disableCache := true } okEnv emptyFs
        (initState { baseCfg with disableCache := true }) (.str "foo") ()).hashaCalls = 0 ∧
    ∀ h ∈ (invoke { baseCfg with disableCache := true } okEnv emptyFs
        (initState { baseCfg with disableCache := true }) (.str "foo") ()).hashArgs,
      h = none :=
  c9_disable_cache_no_hash { baseCfg with disableCache := true } okEnv emptyFs
    (initState { baseCfg with disableCache := true }) (.str "foo") () rfl

/-- C5 counterexample: with a permission-protected cache file, the read fails
with EACCES, yet the invocation surfaces no error — it runs the transform and
returns its result as if uncached, contradicting the claim that such an
error surfaces and that the call never degrades to running the transform. -/
theorem c5_read_error_counterexample :
    readFs deniedFs (cachedPath preCfg (.str "foo") ()) = .error "EACCES" ∧
    (invoke preCfg okEnv deniedFs (initState preCfg) (.str "foo") ()).ret
      = .ok (.str "foo bar") ∧
    (invoke preCfg okEnv deniedFs (initState preCfg) (.str "foo") ()).tfCalls = 1 := by
  decide

/-- C5 amended: a read failure unrelated to the transient race (permission
denied) does not surface; the call silently degrades to the miss path — the
transform is invoked and, when the subsequent persist succeeds, its result is
returned as if uncached (only a realization or persist failure would
surface). -/
theorem c5_read_error_degrades {μ : Type} (cfg : Config μ) (env : Env μ)
    (fs : Fs) (st : WrapState μ) (input : Value) (meta : μ) (f : TransformFn μ)
    (hby : bypassed cfg input meta = false)
    (hdc : cfg.disableCache = false)
    (hdenied : fs (cachedPath cfg input meta) = some .denied)
    (hw : env.writeFault = none)
    (hcr : st.created = true)
    (hfn : st.transformFn = some f) :
    (invoke cfg env fs st input meta).ret
      = .ok (f input meta (some (deriveKey cfg input meta))) ∧
    (invoke cfg env fs st input meta).tfCalls = 1 := by
  have hro : readFs fs (cachedPath cfg input meta) = .error "EACCES" := by
    simp [readFs, hdenied]
  unfold invoke
  simp [hby, hdc, hro, transformStep, hcr, hfn, hw]

/-- C5 amended witness: the permission-protected read degrades to a
successful transform run. -/
theorem c5_read_error_degrades_witness :
    (invoke preCfg okEnv deniedFs (initState preCfg) (.str "foo") ()).ret
      = .ok (appendBar (.str "foo") ()
          (some (deriveKey preCfg (.str "foo") ()))) ∧
    (invoke preCfg okEnv deniedFs (initState preCfg) (.str "foo") ()).tfCalls = 1 :=
  c5_read_error_degrades preCfg okEnv deniedFs (initState preCfg)
    (.str "foo") () appendBar rfl rfl (by decide) rfl rfl rfl

/-- C6 counterexample: with a factory that throws on the first two
invocations, the realization state is rolled back each time and directory
creation is attempted twice (and the factory invoked twice), contradicting
the claim that both happen at most once even in sequences in which some
invocations throw. -/
theorem c6_realization_counterexample :
    (invoke factCfg badFactoryEnv emptyFs (initState factCfg) (.str "a") ()).ret
      = .error "EFACTORY" ∧
    (runSeq factCfg [(badFactoryEnv, .str "a", ()), (badFactoryEnv, .str "a", ())]
        emptyFs (initState factCfg)).2.2.1 = 2 ∧
    (runSeq factCfg [(badFactoryEnv, .str "a", ()), (badFactoryEnv, .str "a", ())]
        emptyFs (initState factCfg)).2.2.2 = 2 := by
  decide

/-- C6 amended: over every sequence of invocations in which directory
creation and the factory themselves never throw (other steps may still
throw), directory creation is attempted at most once and the factory is
invoked at most once per wrapper instance, however many misses occur. -/
theorem c6_lazy_single_realization {μ : Type} (cfg : Config μ)
    (calls : List (Env μ × Value × μ)) (fs : Fs)
    (hval : optsValid cfg = true)
    (hok : ∀ c ∈ calls, c.1.mkdirFault = none ∧ ∃ f, c.1.factoryNow = .ok f) :
    (runSeq cfg calls fs (initState cfg)).2.2.1 ≤ 1 ∧
    (runSeq cfg calls fs (initState cfg)).2.2.2 ≤ 1 := by
  have hv : cfg.hasFactory = true ∨ (initState cfg).transformFn.isSome = true := by
    unfold optsValid at hval
    cases h : cfg.transform with
    | none =>
      left
      simp [h] at hval
      exact hval
    | some f =>
      right
      simp [initState, h]
  exact (runSeq_counts cfg calls fs (initState cfg) hok hv).1

/-- C6 amended witness: two fault-free miss invocations of a factory wrapper
create the directory at most once and call the factory at most once. -/
theorem c6_lazy_single_realization_witness :
    (runSeq factCfg [(okEnv, .str "a", ()), (okEnv, .str "b", ())]
        emptyFs (initState factCfg)).2.2.1 ≤ 1 ∧
    (runSeq factCfg [(okEnv, .str "a", ()), (okEnv, .str "b", ())]
        emptyFs (initState factCfg)).2.2.2 ≤ 1 :=
  c6_lazy_single_realization factCfg
    [(okEnv, .str "a", ()), (okEnv, .str "b", ())] emptyFs rfl
    (by
      intro c hc
      rcases List.mem_cons.mp hc with rfl | hc
      · exact ⟨rfl, appendBar, rfl⟩
      rcases List.mem_cons.mp hc with rfl | hc
      · exact ⟨rfl, appendBar, rfl⟩
      · cases hc)

/-- C8: if directory creation or the factory throws during lazy realization
on a cache miss, the closure state is unchanged (created stays unset, no
transform function is memoized) and the error surfaces without the transform
running; a subsequent miss from the same state re-attempts directory
creation and, when applicable, the factory call. -/
theorem c8_realization_failure_state {μ : Type} (cfg : Config μ) (env : Env μ)
    (fs : Fs) (st : WrapState μ) (input : Value) (meta : μ)
    (hby : bypassed cfg input meta = false)
    (hdc : cfg.disableCache = false)
    (hcr : st.created = false)
    (hread : ∃ e, readFs fs (cachedPath cfg input meta) = .error e) :
    (∀ e, cfg.createCacheDir = true → env.mkdirFault = some e →
      (invoke cfg env fs st input meta).st = st ∧
      (invoke cfg env fs st input meta).ret = .error e ∧
      (invoke cfg env fs st input meta).tfCalls = 0) ∧
    (∀ e, env.mkdirFault = none → st.transformFn = none →
      cfg.hasFactory = true → env.factoryNow = .error e →
      (invoke cfg env fs st input meta).st = st ∧
      (invoke cfg env fs st input meta).ret = .error e ∧
      (invoke cfg env fs st input meta).tfCalls = 0) ∧
    (∀ (env₂ : Env μ) (fs₂ : Fs), cfg.createCacheDir = true →
      (∃ e₂, readFs fs₂ (cachedPath cfg input meta) = .error e₂) →
      (invoke cfg env₂ fs₂ st input meta).mkdirAttempts = 1 ∧
      (st.transformFn = none → cfg.hasFactory = true →
        env₂.mkdirFault = none →
        (invoke cfg env₂ fs₂ st input meta).factoryCalls = 1)) := by
  obtain ⟨e₀, he₀⟩ := hread
  refine ⟨?_, ?_, ?_⟩
  · intro e hcc hmk
    unfold invoke
    simp [hby, hdc, he₀, transformStep, hcr, hcc, hmk]
  · intro e hmk hfn hfac hfe
    unfold invoke
    simp only [hby, Bool.false_eq_true, if_false, hdc, he₀]
    unfold transformStep
    by_cases hcc : cfg.createCacheDir = true <;>
      simp [hcr, hdc, hmk, hfn, hfac, hfe, hcc]
  · intro env₂ fs₂ hcc hread₂
    obtain ⟨e₂, he₂⟩ := hread₂
    constructor
    · unfold invoke
      simp only [hby, Bool.false_eq_true, if_false, hdc, he₂]
      unfold transformStep
      simp only [hcr, hcc, hdc]
      repeat' split
      all_goals simp_all
    · intro hfn hfac hmk₂
      unfold invoke
      simp only [hby, Bool.false_eq_true, if_false, hdc, he₂]
      unfold transformStep
      simp only [hcr, hcc, hdc, hmk₂, hfn, hfac]
      cases hf₂ : env₂.factoryNow <;> cases hwf : env₂.writeFault <;> simp_all

/-- C8 witness: a throwing makeDir leaves the state unchanged and a later
fault-free miss attempts makeDir (and the factory) again. -/
theorem c8_realization_failure_state_witness :
    ((invoke factCfg badMkdirEnv emptyFs (initState factCfg) (.str "a") ()).st
        = initState factCfg ∧
      (invoke factCfg badMkdirEnv emptyFs (initState factCfg) (.str "a") ()).ret
        = .error "EPERM" ∧
      (invoke factCfg badMkdirEnv emptyFs (initState factCfg) (.str "a") ()).tfCalls
        = 0) ∧
    (invoke factCfg okEnv emptyFs (initState factCfg) (.str "a") ()).mkdirAttempts
        = 1 ∧
    (invoke factCfg okEnv emptyFs (initState factCfg) (.str "a") ()).factoryCalls
        = 1 := by
  have h := c8_realization_failure_state factCfg badMkdirEnv emptyFs
    (initState factCfg) (.str "a") () rfl rfl rfl ⟨"ENOENT", by decide⟩
  have h1 := h.1 "EPERM" rfl rfl
  have h3 := h.2.2 okEnv emptyFs rfl ⟨"ENOENT", by decide⟩
  exact ⟨h1, h3.1, h3.2 rfl rfl rfl⟩

theorem replicate_mark_inj : ∀ (a b : Nat) (r₁ r₂ : List Char),
    List.replicate a 'a' ++ 'b' :: r₁ = List.replicate b 'a' ++ 'b' :: r₂ →
    a = b ∧ r₁ = r₂ := by
  intro a
  induction a with
  | zero =>
    intro b r₁ r₂ h
    cases b with
    | zero =>
      simp only [List.replicate_zero, List.nil_append] at h
      injection h with _ h2
      exact ⟨rfl, h2⟩
    | succ b =>
      simp only [List.replicate_zero, List.replicate_succ, List.nil_append,
        List.cons_append] at h
      injection h with h1 _
      exact absurd h1 (by decide)
  | succ a ih =>
    intro b r₁ r₂ h
    cases b with
    | zero =>
      simp only [List.replicate_zero, List.replicate_succ, List.nil_append,
        List.cons_append] at h
      injection h with h1 _
      exact absurd h1 (by decide)
    | succ b =>
      simp only [List.replicate_succ, List.cons_append] at h
      injection h with _ h2
      obtain ⟨hab, hr⟩ := ih b r₁ r₂ h2
      exact ⟨by rw [hab], hr⟩

theorem flatMap_mark_inj : ∀ l₁ l₂ : List Nat,
    (l₁.flatMap fun n => List.replicate n 'a' ++ ['b'])
      = (l₂.flatMap fun n => List.replicate n 'a' ++ ['b']) → l₁ = l₂ := by
  intro l₁
  induction l₁ with
  | nil =>
    intro l₂ h
    cases l₂ with
    | nil => rfl
    | cons b t =>
      exfalso
      have hl := congrArg List.length h
      simp [List.length_flatMap] at hl
      omega
  | cons a t ih =>
    intro l₂ h
    cases l₂ with
    | nil =>
      exfalso
      have hl := congrArg List.length h
      simp [List.length_flatMap] at hl
    | cons b t₂ =>
      simp only [List.flatMap_cons, List.append_assoc, List.singleton_append] at h
      obtain ⟨hab, ht⟩ := replicate_mark_inj a b _ _ h
      rw [hab, ih t₂ ht]

theorem encodeKey_injective : Function.Injective encodeKey := by
  intro l₁ l₂ h
  apply flatMap_mark_inj
  have h' := congrArg String.data h
  simpa [encodeKey] using h'

/-- C7 counterexample: two cache-enabled key derivations with equal input,
salt and fingerprint but distinct hashData outputs (distinct even after
flattening) derive the same key, because the hashing primitive receives only
the concatenation of the chunks' bytes; the claim that any difference in the
hashData output changes the key is false. -/
theorem c7_sensitivity_counterexample :
    chunksCfg1.hashData (.str "x") () ≠ chunksCfg2.hashData (.str "x") () ∧
    (chunksCfg1.hashData (.str "x") ()).toList
      ≠ (chunksCfg2.hashData (.str "x") ()).toList ∧
    chunksCfg1.salt = chunksCfg2.salt ∧
    chunksCfg1.ownHash = chunksCfg2.ownHash ∧
    hashaInput (hashaData chunksCfg1 (.str "x") ())
      = hashaInput (hashaData chunksCfg2 (.str "x") ()) ∧
    deriveKey chunksCfg1 (.str "x") () = deriveKey chunksCfg2 (.str "x") () := by
  decide

/-- C7 amended: for an injective digest primitive, changing the input alone
or the salt alone (byte-wise, the other components equal) changes the derived
key, and changing the hashData output changes the key whenever the byte
concatenation of its flattening changes — but not necessarily otherwise, as
chunk boundaries are erased before hashing. -/
theorem c7_key_sensitivity {μ : Type} (cfg : Config μ)
    (hinj : Function.Injective cfg.digest) :
    (∀ i₁ i₂ m, (cfg.hashData i₁ m).toList = (cfg.hashData i₂ m).toList →
      valueBytes i₁ ≠ valueBytes i₂ →
      deriveKey cfg i₁ m ≠ deriveKey cfg i₂ m) ∧
    (∀ s₁ s₂ i m, valueBytes s₁ ≠ valueBytes s₂ →
      deriveKey { cfg with salt := s₁ } i m
        ≠ deriveKey { cfg with salt := s₂ } i m) ∧
    (∀ h₁ h₂ i m,
      hashaInput (HashOut.toList (h₁ i m)) ≠ hashaInput (HashOut.toList (h₂ i m)) →
      deriveKey { cfg with hashData := h₁ } i m
        ≠ deriveKey { cfg with hashData := h₂ } i m) := by
  refine ⟨?_, ?_, ?_⟩
  · intro i₁ i₂ m hH hne heq
    apply hne
    unfold deriveKey at heq
    have h := hinj heq
    unfold hashaData at h
    simp only [List.cons_append, List.nil_append, hashaInput_cons, hH] at h
    exact List.append_cancel_right (List.append_cancel_left h)
  · intro s₁ s₂ i m hne heq
    apply hne
    unfold deriveKey at heq
    have h := hinj heq
    unfold hashaData at h
    simp only [List.cons_append, List.nil_append, hashaInput_cons] at h
    exact List.append_cancel_right
      (List.append_cancel_left (List.append_cancel_left h))
  · intro h₁ h₂ i m hne heq
    apply hne
    unfold deriveKey at heq
    have h := hinj heq
    unfold hashaData at h
    simp only [List.cons_append, List.nil_append, hashaInput_cons] at h
    exact List.append_cancel_left
      (List.append_cancel_left (List.append_cancel_left h))

/-- C7 amended witness: under the injective digest, two inputs with distinct
bytes derive distinct keys. -/
theorem c7_key_sensitivity_witness :
    deriveKey injCfg (.str "x") () ≠ deriveKey injCfg (.str "y") () :=
  (c7_key_sensitivity injCfg encodeKey_injective).1 (.str "x") (.str "y") ()
    rfl (by decide)

/-- C10: on a cache miss the caller receives the transform's raw output, not
the persisted content re-decoded; a subsequent hit returns the decode of the
encode of that output, so under a non-round-tripping text encoding the two
calls return different values. -/
theorem c10_miss_returns_raw {μ : Type} (cfg : Config μ) (env₁ env₂ : Env μ)
    (fs : Fs) (st : WrapState μ) (input : Value) (meta : μ) (c : Codec)
    (f : TransformFn μ) (s : String)
    (hby : bypassed cfg input meta = false)
    (hdc : cfg.disableCache = false)
    (henc : cfg.encoding = some c)
    (hmiss : fs (cachedPath cfg input meta) = none)
    (hw : env₁.writeFault = none)
    (hcr : st.created = true)
    (hfn : st.transformFn = some f)
    (hres : f input meta (some (deriveKey cfg input meta)) = .str s) :
    (invoke cfg env₁ fs st input meta).ret = .ok (.str s) ∧
    (invoke cfg env₂ (invoke cfg env₁ fs st input meta).fs
        (invoke cfg env₁ fs st input meta).st input meta).ret
      = .ok (.str (c.dec (c.enc s))) ∧
    (c.dec (c.enc s) ≠ s →
      (invoke cfg env₂ (invoke cfg env₁ fs st input meta).fs
          (invoke cfg env₁ fs st input meta).st input meta).ret
        ≠ (invoke cfg env₁ fs st input meta).ret) := by
  have hro : readFs fs (cachedPath cfg input meta) = .error "ENOENT" := by
    simp [readFs, hmiss]
  have hret1 : (invoke cfg env₁ fs st input meta).ret = .ok (.str s) := by
    unfold invoke
    simp [hby, hdc, hro, transformStep, hcr, hfn, hres, hw]
  have hfs1 : (invoke cfg env₁ fs st input meta).fs
      = fsSet fs (cachedPath cfg input meta) (c.enc s) := by
    unfold invoke
    simp [hby, hdc, hro, transformStep, hcr, hfn, hres, hw, henc, encodeWrite]
  have hst1 : (invoke cfg env₁ fs st input meta).st = st := by
    unfold invoke
    simp [hby, hdc, hro, transformStep, hcr, hfn, hres, hw]
  have hro2 : readFs (fsSet fs (cachedPath cfg input meta) (c.enc s))
      (cachedPath cfg input meta) = .ok (c.enc s) := by
    simp [readFs, fsSet]
  have hret2 : (invoke cfg env₂ (invoke cfg env₁ fs st input meta).fs
      (invoke cfg env₁ fs st input meta).st input meta).ret
      = .ok (.str (c.dec (c.enc s))) := by
    rw [hfs1, hst1]
    unfold invoke
    simp [hby, hdc, hro2, decodeRead, henc]
  refine ⟨hret1, hret2, fun hne hcontra => ?_⟩
  rw [hret1, hret2] at hcontra
  injection hcontra with hcontra
  injection hcontra with hcontra
  exact hne hcontra

/-- C10 witness: under the lossy codec, the miss call returns the raw
transform output and the following hit call returns a different value. -/
theorem c10_miss_returns_raw_witness :
    (invoke lossyCfg okEnv emptyFs (initState lossyCfg) (.str "i") ()).ret
      = .ok (.str "abc") ∧
    (invoke lossyCfg okEnv
        (invoke lossyCfg okEnv emptyFs (initState lossyCfg) (.str "i") ()).fs
        (invoke lossyCfg okEnv emptyFs (initState lossyCfg) (.str "i") ()).st
        (.str "i") ()).ret
      = .ok (.str (lossyCodec.dec (lossyCodec.enc "abc"))) ∧
    (lossyCodec.dec (lossyCodec.enc "abc") ≠ "abc" →
      (invoke lossyCfg okEnv
          (invoke lossyCfg okEnv emptyFs (initState lossyCfg) (.str "i") ()).fs
          (invoke lossyCfg okEnv emptyFs (initState lossyCfg) (.str "i") ()).st
          (.str "i") ()).ret
        ≠ (invoke lossyCfg okEnv emptyFs (initState lossyCfg) (.str "i") ()).ret) :=
  c10_miss_returns_raw lossyCfg okEnv okEnv emptyFs (initState lossyCfg)
    (.str "i") () lossyCodec constAbc "abc" rfl rfl rfl rfl rfl rfl rfl rfl

theorem persistLoop_ok_at (w : Nat → WriteOutcome) (a r : Nat) (h : w a = .ok) :
    persistLoop w a r = (a + 1, none) := by
  rw [persistLoop.eq_def, h]

theorem persistLoop_step (w : Nat → WriteOutcome) (a r : Nat) (e : Err)
    (h : w a = .transient e) :
    persistLoop w a (r + 1) = persistLoop w (a + 1) r := by
  rw [persistLoop.eq_def, h]

theorem persistLoop_exhaust (w : Nat → WriteOutcome) (a : Nat) (e : Err)
    (h : w a = .transient e) :
    persistLoop w a 0 = (a + 1, some e) := by
  rw [persistLoop.eq_def, h]

theorem persistLoop_first_ok (w : Nat → WriteOutcome) (k : Nat) (hk : k ≤ 3)
    (ht : ∀ j, j < k → ∃ e, w j = .transient e) (hok : w k = .ok) :
    persistLoop w 0 3 = (k + 1, none) := by
  interval_cases k
  · exact persistLoop_ok_at w 0 3 hok
  · obtain ⟨e0, h0⟩ := ht 0 (by omega)
    rw [persistLoop_step w 0 2 e0 h0]
    exact persistLoop_ok_at w 1 2 hok
  · obtain ⟨e0, h0⟩ := ht 0 (by omega)
    obtain ⟨e1, h1⟩ := ht 1 (by omega)
    rw [persistLoop_step w 0 2 e0 h0, persistLoop_step w 1 1 e1 h1]
    exact persistLoop_ok_at w 2 1 hok
  · obtain ⟨e0, h0⟩ := ht 0 (by omega)
    obtain ⟨e1, h1⟩ := ht 1 (by omega)
    obtain ⟨e2, h2⟩ := ht 2 (by omega)
    rw [persistLoop_step w 0 2 e0 h0, persistLoop_step w 1 1 e1 h1,
      persistLoop_step w 2 0 e2 h2]
    exact persistLoop_ok_at w 3 0 hok

theorem persistLoop_all_transient (w : Nat → WriteOutcome) (e₃ : Err)
    (ht : ∀ j, j < 3 → ∃ e, w j = .transient e) (h3 : w 3 = .transient e₃) :
    persistLoop w 0 3 = (4, some e₃) := by
  obtain ⟨e0, h0⟩ := ht 0 (by omega)
  obtain ⟨e1, h1⟩ := ht 1 (by omega)
  obtain ⟨e2, h2⟩ := ht 2 (by omega)
  rw [persistLoop_step w 0 2 e0 h0, persistLoop_step w 1 1 e1 h1,
    persistLoop_step w 2 0 e2 h2]
  exact persistLoop_exhaust w 3 e₃ h3

/-- C1: on a cache miss of the retrying orchestrator, a persist failing with
the transient race error is retried up to 3 additional attempts — if one of
the first four attempts succeeds the result is returned, otherwise the error
of the final attempt surfaces — and the transform runs exactly once in either
case, its already-computed result being reused for every attempt. -/
theorem c1_persist_retry {μ : Type} (cfg : ConfigR μ) (env : EnvR μ) (fs : Fs)
    (st : WrapState μ) (input : Value) (meta : μ) (f : TransformFn μ)
    (hby : bypassed cfg.toConfig input meta = false)
    (hdc : cfg.disableCache = false)
    (hmiss : fs (cachedPathR cfg input meta) = none)
    (hcr : st.created = true)
    (hfn : st.transformFn = some f) :
    (∀ k, k ≤ 3 → (∀ j, j < k → ∃ e, env.writeOutcomes j = .transient e) →
      env.writeOutcomes k = .ok →
      (invokeR cfg env fs st input meta).ret
        = .ok (f input meta (some (deriveKey cfg.toConfig input meta))) ∧
      (invokeR cfg env fs st input meta).writes
        = List.replicate (k + 1) (cachedPathR cfg input meta,
            encodeWrite cfg.encoding
              (f input meta (some (deriveKey cfg.toConfig input meta)))) ∧
      (invokeR cfg env fs st input meta).tfCalls = 1) ∧
    (∀ e₃, (∀ j, j < 3 → ∃ e, env.writeOutcomes j = .transient e) →
      env.writeOutcomes 3 = .transient e₃ →
      (invokeR cfg env fs st input meta).ret = .error e₃ ∧
      (invokeR cfg env fs st input meta).writes
        = List.replicate 4 (cachedPathR cfg input meta,
            encodeWrite cfg.encoding
              (f input meta (some (deriveKey cfg.toConfig input meta)))) ∧
      (invokeR cfg env fs st input meta).tfCalls = 1) := by
  have hro : readFs fs (cachedPathR cfg input meta) = .error "ENOENT" := by
    simp [readFs, hmiss]
  constructor
  · intro k hk ht hok
    have hp := persistLoop_first_ok env.writeOutcomes k hk ht hok
    unfold invokeR
    simp [hby, hdc, hro, transformStep, hcr, hfn, hp]
  · intro e₃ ht h3
    have hp := persistLoop_all_transient env.writeOutcomes e₃ ht h3
    unfold invokeR
    simp [hby, hdc, hro, transformStep, hcr, hfn, hp]

/-- C1 witness: with the first two persist attempts failing transiently and
the third succeeding, the call returns the transform result after three write
attempts with a single transform run. -/
theorem c1_persist_retry_witness :
    (invokeR rCfg (retryEnv 2) emptyFs (initState rCfg.toConfig)
        (.str "foo") ()).ret
      = .ok (appendBar (.str "foo") ()
          (some (deriveKey rCfg.toConfig (.str "foo") ()))) ∧
    (invokeR rCfg (retryEnv 2) emptyFs (initState rCfg.toConfig)
        (.str "foo") ()).writes
      = List.replicate 3 (cachedPathR rCfg (.str "foo") (),
          encodeWrite rCfg.encoding
            (appendBar (.str "foo") ()
              (some (deriveKey rCfg.toConfig (.str "foo") ())))) ∧
    (invokeR rCfg (retryEnv 2) emptyFs (initState rCfg.toConfig)
        (.str "foo") ()).tfCalls = 1 :=
  (c1_persist_retry rCfg (retryEnv 2) emptyFs (initState rCfg.toConfig)
      (.str "foo") () appendBar rfl rfl rfl rfl rfl).1 2 (by omega)
    (by
      intro j hj
      exact ⟨"ENOENT", by simp [retryEnv, hj]⟩)
    (by decide)

/-- C4: every cache-enabled invocation of the retrying orchestrator reads
from, and only ever writes to, the path
cacheDirectoryPath / (filenamePrefix(metadata) + key + extension). -/
theorem c4_filename_prefix_path {μ : Type} (cfg : ConfigR μ) (env : EnvR μ)
    (fs : Fs) (st : WrapState μ) (input : Value) (meta : μ)
    (hby : bypassed cfg.toConfig input meta = false)
    (hdc : cfg.disableCache = false) :
    (invokeR cfg env fs st input meta).reads
      = [cfg.cacheDir ++ "/" ++
          (cfg.filenamePrefix meta ++ deriveKey cfg.toConfig input meta ++ cfg.ext)] ∧
    ∀ w ∈ (invokeR cfg env fs st input meta).writes,
      w.1 = cfg.cacheDir ++ "/" ++
          (cfg.filenamePrefix meta ++ deriveKey cfg.toConfig input meta ++ cfg.ext) := by
  unfold invokeR
  simp only [hby, Bool.false_eq_true, if_false, hdc]
  cases hro : readFs fs (cachedPathR cfg input meta) with
  | ok b => simp [hro, cachedPathR]
  | error e =>
    cases hres : (transformStep cfg.toConfig env.toEnv st input meta
        (some (deriveKey cfg.toConfig input meta))).res with
    | error e2 => simp [hro, hres, cachedPathR]
    | ok r =>
      cases hp2 : (persistLoop env.writeOutcomes 0 3).2 with
      | some e3 =>
        simp only [hro, hres, hp2, cachedPathR]
        refine ⟨by simp, ?_⟩
        intro w hw
        simp only [List.mem_replicate] at hw
        rw [hw.2]
      | none =>
        simp only [hro, hres, hp2, cachedPathR]
        refine ⟨by simp, ?_⟩
        intro w hw
        simp only [List.mem_replicate] at hw
        rw [hw.2]

/-- C4 witness: a concrete invocation with prefix pre- reads and writes only
the prefixed path. -/
theorem c4_filename_prefix_path_witness :
    (invokeR rCfg (retryEnv 0) emptyFs (initState rCfg.toConfig)
        (.str "foo") ()).reads
      = [rCfg.cacheDir ++ "/" ++
          (rCfg.filenamePrefix () ++ deriveKey rCfg.toConfig (.str "foo") ()
            ++ rCfg.ext)] ∧
    ∀ w ∈ (invokeR rCfg (retryEnv 0) emptyFs (initState rCfg.toConfig)
        (.str "foo") ()).writes,
      w.1 = rCfg.cacheDir ++ "/" ++
          (rCfg.filenamePrefix () ++ deriveKey rCfg.toConfig (.str "foo") ()
            ++ rCfg.ext) :=
  c4_filename_prefix_path rCfg (retryEnv 0) emptyFs (initState rCfg.toConfig)
    (.str "foo") () rfl rfl

end CachingTransform
